import Mathlib

/-
  Verification development for the intermediate tensor splitter pass
  (tensorflow/compiler/xla/service/intermediate_tensor_splitter.cc).

  The pass is embedded shallowly: shapes are lists of dimension sizes,
  HLO instructions are a tree-shaped inductive carrying the recorded
  shape of every node, and the pass functions (OperandShouldBeSplit,
  OperandCanBeSplit, BestSplitDim, BestSplitSize,
  BuildComputationAndParameters, HandleDot, Run) are translated from
  the source.  The int64 sentinel -1 of the source is rendered as
  Option.none.  Machine integers are modelled as Nat: all quantities
  involved (dimension sizes, element counts, thresholds) are
  non-negative and far below 2 to the 63 in every use, so no overflow
  reduction is needed.
-/

/-- A tensor shape: the ordered list of dimension sizes.  The element
type plays no role in any claim and is elided. -/
abbrev Shape := List Nat

/-- ShapeUtil.ElementsIn: product of all dimension sizes (external host
helper used by the pass). -/
def ElementsIn (s : Shape) : Nat := s.prod

/-- Shape.set_dimensions(dim, value): replace one dimension size.
List.set is a no-op out of range; every use in the pass stays in range. -/
def setDim (s : Shape) (dim value : Nat) : Shape := s.set dim value

/-- The fixed table of the first 64 primes from the source
(`const int64 primes[64]`). -/
def primesList : List Nat :=
  [2, 3, 5, 7, 11, 13, 17, 19, 23, 29, 31,
   37, 41, 43, 47, 53, 59, 61, 67, 71, 73, 79,
   83, 89, 97, 101, 103, 107, 109, 113, 127, 131, 137,
   139, 149, 151, 157, 163, 167, 173, 179, 181, 191, 193,
   197, 199, 211, 223, 227, 229, 233, 239, 241, 251, 257,
   263, 269, 271, 277, 281, 283, 293, 307, 311]

/-- One factor-counting loop of BestSplitSize
(`while (tmp_size % primes[i] == 0) { factors[i]++; tmp_size /= primes[i]; }`),
returning the multiplicity counted and the remaining value.  Fuel-based
so that the kernel can evaluate it; fuel n suffices for input n because
each division strictly shrinks a positive input.  (The source loops
forever when tmp is 0; all reachable inputs are positive.) -/
def countDivGo (p : Nat) : Nat → Nat → Nat × Nat
  | 0, n => (0, n)
  | fuel + 1, n =>
    if 2 ≤ p ∧ n ≠ 0 ∧ n % p = 0 then
      let r := countDivGo p fuel (n / p)
      (r.1 + 1, r.2)
    else (0, n)

/-- Multiplicity of p in n together with n with all factors p removed. -/
def countDiv (p n : Nat) : Nat × Nat := countDivGo p n n

/-- The factor-counting phase of BestSplitSize: walk the prime table,
threading the reduced tmp value through, and record the per-prime
multiplicities (`int64 factors[64]`).  Returns the counts in table
order and the final remaining tmp value. -/
def factorCounts : List Nat → Nat → List Nat × Nat
  | [], n => ([], n)
  | p :: ps, n =>
    let r := countDiv p n
    let rest := factorCounts ps r.2
    (r.1 :: rest.1, rest.2)

/-- The reduction loop of BestSplitSize for one prime
(`while (split_size * rest_size > target && factors[i]-- > 0) split_size /= primes[i];`). -/
def greedyReduce (targetSize restSize p : Nat) : Nat → Nat → Nat
  | 0, s => s
  | c + 1, s =>
    if targetSize < s * restSize then greedyReduce targetSize restSize p c (s / p)
    else s

/-- The outer `for (int i = 0; i < 64; i++)` of the reduction phase,
consuming the (prime, multiplicity) pairs in table order. -/
def greedyFold (targetSize restSize : Nat) : List (Nat × Nat) → Nat → Nat
  | [], s => s
  | pc :: rest, s =>
    greedyFold targetSize restSize rest (greedyReduce targetSize restSize pc.1 pc.2 s)

/-- IntermediateTensorSplitterVisitor.BestSplitSize, acting on the shape
of the instruction it receives.  Returns none for the sentinel -1. -/
def BestSplitSize (maxSize targetSize : Nat) (shape : Shape) (splitDim : Nat) :
    Option Nat :=
  let splitSize := shape.getD splitDim 0
  let restSize := ElementsIn shape / splitSize
  let fc := factorCounts primesList splitSize
  let final := greedyFold targetSize restSize (primesList.zip fc.1) splitSize
  if final ≤ maxSize then some final else none

/-- IntermediateTensorSplitterVisitor.BestSplitDim, acting on the shape
of the instruction it receives.  Fold over dimension indices keeping
(best dim so far, best size so far), starting from (-1, 0); a dimension
replaces the best only with a strictly greater size and a successful
BestSplitSize.  Returns none for the sentinel -1. -/
def BestSplitDim (maxSize targetSize : Nat) (shape : Shape) (excluded : List Nat) :
    Option Nat :=
  ((List.range shape.length).foldl
    (fun acc i =>
      if i ∈ excluded then acc
      else if acc.2 < shape.getD i 0 ∧ (BestSplitSize maxSize targetSize shape i).isSome
        then (some i, shape.getD i 0) else acc)
    ((none : Option Nat), 0)).1

/-
  The host graph representation.  Every node carries its recorded shape
  (as HloInstruction does); operands are sub-trees.  The node kinds are
  the ones the pass touches: parameter and the catch-all `other` are
  leaves for the analyzer (neither is a dot, a side-effect-free
  elementwise unary, or a transpose); unary stands for exactly the
  class matched by MatchPointwiseUnary (elementwise, no side effects,
  one operand), with its pointwise function carried semantically.
-/

/-- An HLO instruction with its recorded shape. -/
inductive HloInst where
  /-- HloInstruction.CreateParameter(idx, shape, name). -/
  | parameter (idx : Nat) (shape : Shape)
  /-- A dot: lhs, rhs and the contracting dimensions of each operand
  (dot_dimension_numbers). -/
  | dot (shape : Shape) (lhs rhs : HloInst) (lhsContracting rhsContracting : List Nat)
  /-- A side-effect-free elementwise unary operation, carrying its
  pointwise function. -/
  | unary (shape : Shape) (f : Int → Int) (op : HloInst)
  /-- A transpose; perm is the dimensions() attribute: output dimension
  i is operand dimension perm[i]. -/
  | transpose (shape : Shape) (perm : List Nat) (op : HloInst)
  /-- HloInstruction.CreateSlice(shape, operand, starts, limits, strides). -/
  | slice (shape : Shape) (op : HloInst) (starts limits strides : List Nat)
  /-- HloInstruction.CreateConcatenate(shape, operands, dimension). -/
  | concat (shape : Shape) (ops : List HloInst) (dim : Nat)
  /-- HloInstruction.CreateCall(shape, operands, computation); the
  computation is represented by its root, whose parameter nodes index
  into the operand list. -/
  | call (shape : Shape) (ops : List HloInst) (root : HloInst)
  /-- Any node kind the pass does not handle. -/
  | other (shape : Shape)

/-- The recorded shape of a node. -/
def HloInst.shape : HloInst → Shape
  | .parameter _ s => s
  | .dot s _ _ _ _ => s
  | .unary s _ _ => s
  | .transpose s _ _ => s
  | .slice s _ _ _ _ => s
  | .concat s _ _ => s
  | .call s _ _ => s
  | .other s => s

/-- IntermediateTensorSplitterVisitor.OperandShouldBeSplit:
the element count of the shape exceeds max_intermediate_size. -/
def OperandShouldBeSplit (maxSize : Nat) (inst : HloInst) : Bool :=
  maxSize < ElementsIn inst.shape

/-- IntermediateTensorSplitterVisitor.OperandCanBeSplit: a dot is a
valid base; a pointwise unary (MatchPointwiseUnary) or a transpose
defers to its operand; anything else is not splittable. -/
def OperandCanBeSplit : HloInst → Bool
  | .dot _ _ _ _ _ => true
  | .unary _ _ op => OperandCanBeSplit op
  | .transpose _ _ op => OperandCanBeSplit op
  | _ => false

/-- The split-dimension adjustment loop of the dot base case of
BuildComputationAndParameters
(`for i: if (split_dim >= dnums.lhs_contracting_dimensions(i)) split_dim += 1;`),
with the running value threaded through the iterations. -/
def adjustSplitDim (contractingDims : List Nat) (splitDim : Nat) : Nat :=
  contractingDims.foldl (fun d c => if c ≤ d then d + 1 else d) splitDim

/-- The operand-space to output-space correction of HandleDot
(`for c_dim: if (c_dim < dot_split_dim) dot_split_dim--;`). -/
def reduceByContracting (contractingDims : List Nat) (splitDim : Nat) : Nat :=
  contractingDims.foldl (fun d c => if c < d then d - 1 else d) splitDim

/-- Number of iterations of `while (dims_done < dim) { i++; dims_done += step }`
(also of the chunk-list loop of HandleDot).  The source loops forever
for step 0; that is unreachable since BestSplitSize is positive on the
positive dimension sizes it is applied to. -/
def chunkCount (dim step : Nat) : Nat :=
  if step = 0 then 0 else (dim + step - 1) / step

/-- IntermediateTensorSplitterVisitor.BuildComputationAndParameters.
Returns the root of the chunk computation and the updated per-chunk
parameter lists; none models the fatal CHECK(false) of the unhandled
node kind (and the out-of-range vector access when the builder needs
more chunk lists than HandleDot allocated).  The builder object itself
is elided: created instructions live in the returned tree. -/
def BuildComputationAndParameters (inst : HloInst) (splitDim splitSize : Nat)
    (parameters : List (List HloInst)) : Option (HloInst × List (List HloInst)) :=
  match inst with
  | .dot dshape lhs rhs lhsC rhsC =>
    let dotShape := setDim dshape splitDim splitSize
    let dimsLhs := lhs.shape.length - lhsC.length
    let parts :=
      if splitDim < dimsLhs then (true, splitDim, lhs, rhs)
      else (false, splitDim - dimsLhs, rhs, lhs)
    let splitIsLhs := parts.1
    let splitOp := parts.2.2.1
    let joinOp := parts.2.2.2
    -- the source adjusts with the lhs contracting dimensions for both
    -- operands (lines 176-178)
    let sd := adjustSplitDim lhsC parts.2.1
    let splitShape := setDim splitOp.shape sd splitSize
    let rank := splitOp.shape.length
    let n := chunkCount (splitOp.shape.getD sd 0) splitSize
    if parameters.length < n then none
    else
      let st := (List.range n).foldl
        (fun (st : List (List HloInst) × Nat × Nat) i =>
          let cur := st.1.getD i []
          let starts := (List.replicate rank 0).set sd (i * splitSize)
          let limits := splitOp.shape.set sd (i * splitSize + splitSize)
          let strides := List.replicate rank 1
          let sl := HloInst.slice splitShape splitOp starts limits strides
          (st.1.set i (cur ++ [sl, joinOp]), cur.length, cur.length + 1))
        (parameters, 0, 0)
      let splitParam := HloInst.parameter st.2.1 splitShape
      let joinParam := HloInst.parameter st.2.2 joinOp.shape
      let ops := if splitIsLhs then (splitParam, joinParam) else (joinParam, splitParam)
      some (.dot dotShape ops.1 ops.2 lhsC rhsC, st.1)
  | .unary _ f op =>
    match BuildComputationAndParameters op splitDim splitSize parameters with
    | none => none
    | some (newOp, ps) => some (.unary newOp.shape f newOp, ps)
  | .transpose _ perm op =>
    -- operand_split_dim = inst->dimensions(split_dim)
    let operandSplitDim := perm.getD splitDim 0
    match BuildComputationAndParameters op operandSplitDim splitSize parameters with
    | none => none
    -- the source clones the transpose with new_operand->shape() (line 247)
    | some (newOp, ps) => some (.transpose newOp.shape perm newOp, ps)
  | _ => none

/-- The semantics of `CHECK(full_size = split_inst->shape().dimensions(split_dim))`
at line 289: the assignment stores the dimension size into full_size and
yields it as the checked value, so the CHECK aborts exactly when the
dimension size is zero — the accumulated full_size (first argument) is
discarded, never compared.  Returns the new full_size, or none for the
abort. -/
def tilingCheck (fullSize dimSize : Nat) : Option Nat :=
  if dimSize ≠ 0 then some dimSize else none

/-- Outcome of visiting one instruction: a fatal CHECK failure, no
change (Status.OK without replacement), or replacement of the node. -/
inductive PassResult where
  | fatal
  | unchanged
  | replaced (g : HloInst)

/-- Whether a visit replaced the node. -/
def PassResult.isReplaced : PassResult → Bool
  | .replaced _ => true
  | _ => false

/-- IntermediateTensorSplitterVisitor.HandleDot. -/
def HandleDot (maxSize targetSize : Nat) (inst : HloInst) : PassResult :=
  match inst with
  | .dot shape lhs rhs lhsC rhsC =>
    let canSplitLhs := OperandShouldBeSplit maxSize lhs && OperandCanBeSplit lhs
    let canSplitRhs := OperandShouldBeSplit maxSize rhs && OperandCanBeSplit rhs
    if canSplitLhs || canSplitRhs then
      let splitIsLhs := canSplitLhs
      let splitInst := if splitIsLhs then lhs else rhs
      match BestSplitDim maxSize targetSize splitInst.shape
          (if splitIsLhs then lhsC else rhsC) with
      | none => .unchanged
      | some splitDim =>
        match BestSplitSize maxSize targetSize splitInst.shape splitDim with
        | none => .fatal  -- CHECK(split_size != -1)
        | some splitSize =>
          let dimFull := splitInst.shape.getD splitDim 0
          let n := chunkCount dimFull splitSize
          match tilingCheck (n * splitSize) dimFull with
          | none => .fatal
          | some _ =>
            match BuildComputationAndParameters splitInst splitDim splitSize
                (List.replicate n []) with
            | none => .fatal
            | some (compRoot, params) =>
              let dotSplitDim :=
                if splitIsLhs then reduceByContracting lhsC splitDim
                else reduceByContracting rhsC splitDim + (lhs.shape.length - lhsC.length)
              -- the source resizes part_shape at split_dim (line 312)
              let partShape := setDim shape splitDim splitSize
              let partsList := params.map (fun operands =>
                let callInst := HloInst.call compRoot.shape operands compRoot
                if splitIsLhs then HloInst.dot partShape callInst rhs lhsC rhsC
                else HloInst.dot partShape lhs callInst lhsC rhsC)
              .replaced (.concat shape partsList dotSplitDim)
    else .unchanged
  | _ => .fatal  -- CHECK(Match(dot, m::Dot(...)))

/-- The visitor run over a module, at the interface level: the module is
its instruction list; the visitor calls HandleDot on each dot and replaces
the node when the visit produced a replacement.  Returns the changed
flag and the resulting instruction list. -/
def RunOnModule (maxSize targetSize : Nat) (m : List HloInst) : Bool × List HloInst :=
  m.foldl
    (fun acc inst =>
      match inst with
      | .dot _ _ _ _ _ =>
        match HandleDot maxSize targetSize inst with
        | .replaced g => (true, acc.2 ++ [g])
        | _ => (acc.1, acc.2 ++ [inst])
      | _ => (acc.1, acc.2 ++ [inst]))
    (false, [])

/-- IntermediateTensorSplitter.Run: builds the visitor with the
hard-coded thresholds max_size = 1000 * 1000 and
target_size = 1000 * 200 and runs it on the module. -/
def Run (m : List HloInst) : Bool × List HloInst :=
  RunOnModule (1000 * 1000) (1000 * 200) m

/-
  Evaluation semantics.  Modelled from the spec: the repository contains
  only the pass, not the host evaluator, so the meaning of each node
  kind follows the spec (section 3 and the glossary): a contraction sums
  products of the two operands over the designated contracting
  dimension pairs, an elementwise unary applies its function pointwise,
  a transpose permutes indices through its dimensions attribute, a
  slice offsets indices by its starts and strides, a concatenate
  dispatches an index along its dimension through the operand extents
  in order, and a call evaluates the computation root with parameter i
  bound to operand i.  A tensor is a total function from index lists to
  integer values; indices outside the recorded bounds read through to
  whatever the underlying function yields, which keeps the semantics
  total on the malformed graphs a buggy rewrite can produce.
-/

/-- Modelled from the spec: a tensor value (data model, section 3) is a
total function from an index list to a value; the host evaluator is
not part of this repository. -/
abbrev Tensor := List Nat → Int

/-- Modelled from the spec: all index tuples for the given list of
extents, in lexicographic order. -/
def allIndices : List Nat → List (List Nat)
  | [] => [[]]
  | e :: rest => (List.range e).flatMap (fun i => (allIndices rest).map (i :: ·))

/-- Modelled from the spec: rebuild a full operand index of the given rank from its free
(non-contracting) coordinates, in ascending dimension order, and the
contracted coordinates k, where contracted dimension cdims[j] receives
k[j]. -/
def mergeIndex (rank : Nat) (cdims : List Nat) (free k : List Nat) : List Nat :=
  (List.range rank).map (fun d =>
    if cdims.contains d then k.getD (cdims.findIdx (fun c => c == d)) 0
    else free.getD (d - (cdims.filter (fun c => decide (c < d))).length) 0)

/-- Modelled from the spec (glossary, Contraction): the output index is the lhs free coordinates
followed by the rhs free coordinates; the value sums the products over
the contracted extents (taken from the lhs shape). -/
def dotSemantics (lshape rshape : Shape) (lhsC rhsC : List Nat)
    (lv rv : Tensor) : Tensor :=
  fun o =>
    let lfreeCount := lshape.length - lhsC.length
    let lfree := o.take lfreeCount
    let rfree := o.drop lfreeCount
    let extents := lhsC.map (fun c => lshape.getD c 0)
    (allIndices extents).foldl
      (fun acc k =>
        acc + lv (mergeIndex lshape.length lhsC lfree k) *
              rv (mergeIndex rshape.length rhsC rfree k))
      0

/-- Modelled from the spec: the operand index read by a transpose for a
given output index:
coordinate perm[i] of the operand index is coordinate i of the output
index. -/
def transposedIndex (perm : List Nat) (o : List Nat) : List Nat :=
  (List.range perm.length).map (fun d => o.getD (perm.findIdx (fun x => x == d)) 0)

/-- Modelled from the spec: the operand index read by a slice for a
given output index. -/
def sliceIndex (starts strides : List Nat) (o : List Nat) : List Nat :=
  (List.range starts.length).map (fun d =>
    starts.getD d 0 + o.getD d 0 * strides.getD d 0)

/-- Modelled from the spec (glossary, Chunk): concatenation semantics
over the operand (shape, value) pairs:
dispatch the coordinate along dim through the recorded operand extents
in order. -/
def concatSemantics (dim : Nat) : List (Shape × Tensor) → Tensor
  | [] => fun _ => 0
  | (sh, v) :: rest => fun o =>
    if o.getD dim 0 < sh.getD dim 0 then v o
    else concatSemantics dim rest (o.set dim (o.getD dim 0 - sh.getD dim 0))

/-- Modelled from the spec: fuel-based evaluator (fuel bounds the
nesting depth; every theorem instance uses ample fuel).  env binds the
parameter indices of the surrounding computation. -/
def evalFuel : Nat → HloInst → (Nat → Tensor) → Tensor
  | 0, _, _ => fun _ => 0
  | fuel + 1, inst, env =>
    match inst with
    | .parameter i _ => env i
    | .dot _ lhs rhs lhsC rhsC =>
      dotSemantics lhs.shape rhs.shape lhsC rhsC
        (evalFuel fuel lhs env) (evalFuel fuel rhs env)
    | .unary _ f op => fun idx => f (evalFuel fuel op env idx)
    | .transpose _ perm op => fun idx => evalFuel fuel op env (transposedIndex perm idx)
    | .slice _ op starts _ strides =>
      fun idx => evalFuel fuel op env (sliceIndex starts strides idx)
    | .concat _ ops dim =>
      concatSemantics dim (ops.map (fun a => (a.shape, evalFuel fuel a env)))
    | .call _ ops root =>
      let vals := ops.map (fun a => evalFuel fuel a env)
      evalFuel fuel root (fun i => vals.getD i (fun _ => 0))
    | .other _ => fun _ => 0

/-
  Concrete instances used to settle the claims that fail on the code.
-/

/-- Leaf operand A: a rank-1 tensor of 8 elements. -/
def instA : HloInst := .parameter 0 [8]

/-- Leaf operand B: an 8 x 8 tensor. -/
def instB : HloInst := .parameter 1 [8, 8]

/-- Leaf operand C: a rank-1 tensor of 2 elements. -/
def instC : HloInst := .parameter 2 [2]

/-- Inner dot D = dot(A, B) contracting lhs dimension 0 against rhs
dimension 1 (asymmetric contracting positions); output shape [8]. -/
def instD : HloInst := .dot [8] instA instB [0] [1]

/-- Outer dot O = dot(D, C) with no contracted dimensions (an outer
product); output shape [8, 2].  Its lhs operand D is the oversized
intermediate for thresholds maxSize = 7, targetSize = 4. -/
def instO : HloInst := .dot [8, 2] instD instC [] []

/-- Concrete input tensors for the leaves: A is all ones, B maps an
index (x, y) to y, C is all ones. -/
def inputEnv : Nat → Tensor := fun i =>
  match i with
  | 0 => fun _ => 1
  | 1 => fun idx => Int.ofNat (idx.getD 1 0)
  | 2 => fun _ => 1
  | _ => fun _ => 0

/-- The graph HandleDot 7 4 substitutes for instO. -/
def instORewritten : HloInst :=
  match HandleDot 7 4 instO with
  | .replaced g => g
  | _ => instO

/-- Claim C1 (code_bug evaluation): on the graph instO the rewrite
succeeds, yet the rewritten graph evaluates to 60 at output index
(4, 0) on the inputs inputEnv while the original graph evaluates to 28
there: the rewritten graph is not semantically equivalent to the
original.  (Root cause: the dot base case of
BuildComputationAndParameters adjusts the split dimension of the rhs
operand with the lhs contracting dimensions, so it slices the rhs of
the inner dot along its contracting dimension.) -/
theorem c1_semantic_divergence :
    (HandleDot 7 4 instO).isReplaced = true ∧
    evalFuel 20 instORewritten inputEnv [4, 0] = 60 ∧
    evalFuel 20 instO inputEnv [4, 0] = 28 ∧ (60 : Int) ≠ 28 := by
  refine ⟨by decide, by decide, by decide, by decide⟩

/-- Projection of a replacement result to (concat shape, concat
dimension, shapes of the concatenated parts). -/
def concatInfo : PassResult → Shape × Nat × List Shape
  | .replaced (.concat s ps d) => (s, d, ps.map HloInst.shape)
  | _ => ([], 0, [])

/-- Operands of the claim C2 instance: A is 6 x 2, B is 2 x 2,
D = dot(A, B) contracting A dimension 1 with B dimension 0, shape
[6, 2]; the outer dot contracts D dimension 0 with C dimension 0,
shape [2, 3].  The split lands on D dimension 1 with chunk size 1, so
the operand-space split dimension (1) differs from the output-space
split dimension (0). -/
def c2A : HloInst := .parameter 0 [6, 2]

/-- See c2A. -/
def c2B : HloInst := .parameter 1 [2, 2]

/-- See c2A. -/
def c2C : HloInst := .parameter 2 [6, 3]

/-- See c2A. -/
def c2D : HloInst := .dot [6, 2] c2A c2B [1] [0]

/-- See c2A. -/
def c2O : HloInst := .dot [2, 3] c2D c2C [0] [0]

/-- Claim C2 (code_bug evaluation): HandleDot 11 3 rewrites c2O into a
concatenate with the original output shape [2, 3] along the correct
output-space dimension 0, but every per-chunk contraction carries
recorded shape [2, 1] — the original output shape with the
operand-space dimension 1 resized (line 312 resizes split_dim) — and
not [1, 3], the original output shape with the output-space dimension
0 resized as the claim states. -/
theorem c2_part_shape_wrong_dimension :
    concatInfo (HandleDot 11 3 c2O) = ([2, 3], 0, [[2, 1], [2, 1]]) ∧
    setDim [2, 3] 0 1 = [1, 3] ∧ ([2, 1] : Shape) ≠ [1, 3] := by
  refine ⟨by decide, by decide, by decide⟩

/-- The starts vector of a slice node (and [] on any other node). -/
def sliceStartsOf : HloInst → List Nat
  | .slice _ _ st _ _ => st
  | _ => []

/-- Claim C3 (code_bug evaluation): building the inner dot instD at
split dimension 0 (which lies in the rhs non-contracting range), the
builder emits per-chunk slices of the rhs with starts [0, 0] and
[0, 4]: it steps through rhs dimension 1, the value
adjustSplitDim [0] 0 = 1 obtained from the lhs contracting dimensions,
although the contracting dimensions of the split operand itself (the
rhs, contracting dimension list [1]) give adjustSplitDim [1] 0 = 0. -/
theorem c3_adjusts_with_lhs_dims :
    (BuildComputationAndParameters instD 0 4 [[], []]).map
        (fun x => x.2.map (fun l => l.map sliceStartsOf)) =
      some [[[0, 0], []], [[0, 4], []]] ∧
    adjustSplitDim [0] 0 = 1 ∧ adjustSplitDim [1] 0 = 0 := by
  refine ⟨by decide, by decide, by decide⟩

/-- Operands of the claim C6 instance: a transpose (permutation [1, 0],
shape [5, 3]) of a dot of shape [3, 5]. -/
def c6A : HloInst := .parameter 0 [3, 4]

/-- See c6A. -/
def c6B : HloInst := .parameter 1 [4, 5]

/-- See c6A. -/
def c6D : HloInst := .dot [3, 5] c6A c6B [1] [0]

/-- See c6A. -/
def c6T : HloInst := .transpose [5, 3] [1, 0] c6D

/-- Claim C6 (code_bug evaluation): c6T is accepted by
OperandCanBeSplit, yet building it at split dimension 0 with chunk
size 1 returns a root of recorded shape [3, 1] — the transpose case
clones with new_operand->shape() (line 247), the un-permuted operand
shape — instead of [1, 3], the input shape with only dimension 0
resized to the chunk size. -/
theorem c6_transpose_root_shape_wrong :
    OperandCanBeSplit c6T = true ∧
    (BuildComputationAndParameters c6T 0 1 (List.replicate 4 [])).map
        (fun x => x.1.shape) = some [3, 1] ∧
    setDim c6T.shape 0 1 = [1, 3] ∧ ([3, 1] : Shape) ≠ [1, 3] := by
  refine ⟨by decide, by decide, by decide, by decide⟩

/-- Claim C7 (code_bug evaluation): in a state where the computed chunk
partition does not tile the split dimension (accumulated full_size 5,
dimension size 7), the tiling check of HandleDot passes — it returns
the dimension size, which it also stores into full_size — because line
289 is an assignment, not a comparison; it would abort only for a
zero dimension size. -/
theorem c7_tiling_check_is_assignment :
    tilingCheck 5 7 = some 7 ∧ (5 : Nat) ≠ 7 ∧ tilingCheck 0 0 = none := by
  refine ⟨by decide, by decide, by decide⟩

/-- Claim C10: the public entry point Run always delegates to the
visitor with the fixed thresholds maxElements = 1,000,000 and
targetElements = 200,000; its signature takes no configuration. -/
theorem c10_fixed_thresholds : ∀ m : List HloInst,
    Run m = RunOnModule 1000000 200000 m :=
  fun _ => rfl

/-
  Facts about the factor-counting and reduction phases of
  BestSplitSize, leading to claims C4 and C9.
-/

theorem countDivGo_mul (p : Nat) : ∀ fuel n, n ≤ fuel →
    (countDivGo p fuel n).2 * p ^ (countDivGo p fuel n).1 = n := by
  intro fuel
  induction fuel with
  | zero => intro n hn; interval_cases n; simp [countDivGo]
  | succ fuel ih =>
    intro n hn
    rw [countDivGo]
    split
    · rename_i h
      have hp : 2 ≤ p := h.1
      have hn0 : n ≠ 0 := h.2.1
      have hdvd : p ∣ n := Nat.dvd_of_mod_eq_zero h.2.2
      have hlt : n / p < n := Nat.div_lt_self (Nat.pos_of_ne_zero hn0) (by omega)
      have := ih (n / p) (by omega)
      simp only [pow_succ]
      calc (countDivGo p fuel (n / p)).2 * (p ^ (countDivGo p fuel (n / p)).1 * p)
          = ((countDivGo p fuel (n / p)).2 * p ^ (countDivGo p fuel (n / p)).1) * p := by
            ring
        _ = (n / p) * p := by rw [this]
        _ = n := Nat.div_mul_cancel hdvd
    · simp

theorem countDiv_mul (p n : Nat) :
    (countDiv p n).2 * p ^ (countDiv p n).1 = n :=
  countDivGo_mul p n n le_rfl

theorem countDiv_rest_dvd (p n : Nat) : (countDiv p n).2 ∣ n :=
  ⟨p ^ (countDiv p n).1, (countDiv_mul p n).symm⟩

theorem countDiv_pow_dvd (p n : Nat) : p ^ (countDiv p n).1 ∣ n :=
  ⟨(countDiv p n).2, by rw [mul_comm]; exact (countDiv_mul p n).symm⟩

theorem countDiv_rest_eq_div (p n : Nat) (hp : 2 ≤ p) :
    (countDiv p n).2 = n / p ^ (countDiv p n).1 := by
  have h := countDiv_mul p n
  have hpos : 0 < p ^ (countDiv p n).1 := Nat.pos_pow_of_pos _ (by omega)
  exact (Nat.div_eq_of_eq_mul_left hpos h.symm).symm

theorem countDiv_rest_ne_zero (p n : Nat) (hn : n ≠ 0) : (countDiv p n).2 ≠ 0 := by
  have h := countDiv_mul p n
  intro h0
  rw [h0, zero_mul] at h
  exact hn h.symm

/-- Full removal of the listed prime powers, by repeated division.
Specification-side companion of the reduction loop, used to state what
a failed BestSplitSize leaves behind. -/
def removeAllPairs : List (Nat × Nat) → Nat → Nat
  | [], s => s
  | pc :: rest, s => removeAllPairs rest (s / pc.1 ^ pc.2)

theorem factorCounts_zip_dvd : ∀ (ps : List Nat) (n : Nat),
    ∀ pc ∈ ps.zip (factorCounts ps n).1, pc.1 ^ pc.2 ∣ n := by
  intro ps
  induction ps with
  | nil => intro n pc h; simp at h
  | cons p ps ih =>
    intro n pc h
    simp only [factorCounts, List.zip_cons_cons, List.mem_cons] at h
    rcases h with h | h
    · subst h; exact countDiv_pow_dvd p n
    · exact dvd_trans (ih (countDiv p n).2 pc h) (countDiv_rest_dvd p n)

theorem factorCounts_removeAll : ∀ (ps : List Nat) (n : Nat),
    (∀ p ∈ ps, 2 ≤ p) → n ≠ 0 →
    removeAllPairs (ps.zip (factorCounts ps n).1) n = (factorCounts ps n).2 := by
  intro ps
  induction ps with
  | nil => intro n _ _; simp [factorCounts, removeAllPairs]
  | cons p ps ih =>
    intro n hp hn
    simp only [factorCounts, List.zip_cons_cons, removeAllPairs]
    rw [← countDiv_rest_eq_div p n (hp p (by simp))]
    exact ih (countDiv p n).2 (fun q hq => hp q (by simp [hq]))
      (countDiv_rest_ne_zero p n hn)

theorem greedyReduce_le (t r p : Nat) : ∀ c s, greedyReduce t r p c s ≤ s := by
  intro c
  induction c with
  | zero => intro s; simp [greedyReduce]
  | succ c ih =>
    intro s
    rw [greedyReduce]
    split
    · exact le_trans (ih (s / p)) (Nat.div_le_self s p)
    · exact le_rfl

theorem greedyReduce_eq_div (t r p : Nat) (hp : 2 ≤ p) : ∀ c s, p ^ c ∣ s →
    ∃ k, k ≤ c ∧ greedyReduce t r p c s = s / p ^ k := by
  intro c
  induction c with
  | zero => intro s _; exact ⟨0, le_rfl, by simp [greedyReduce]⟩
  | succ c ih =>
    intro s hdvd
    rw [greedyReduce]
    split
    · have hps : p ∣ s := dvd_trans (dvd_pow_self p (Nat.succ_ne_zero c)) hdvd
      have hrec : p ^ c ∣ s / p := by
        rcases hdvd with ⟨m, hm⟩
        refine ⟨m, ?_⟩
        rw [hm, pow_succ, mul_assoc, mul_comm p m, ← mul_assoc,
          Nat.mul_div_cancel _ (by omega : 0 < p)]
      rcases ih (s / p) hrec with ⟨k, hk, heq⟩
      exact ⟨k + 1, by omega, by
        rw [heq, Nat.div_div_eq_div_mul, ← pow_succ']⟩
    · exact ⟨0, by omega, by simp⟩

theorem greedyReduce_exhaust (t r p : Nat) : ∀ c s,
    t < greedyReduce t r p c s * r → greedyReduce t r p c s = s / p ^ c := by
  intro c
  induction c with
  | zero => intro s _; simp [greedyReduce]
  | succ c ih =>
    intro s hgt
    rw [greedyReduce] at hgt ⊢
    split
    · rename_i hcond
      rw [if_pos hcond] at hgt
      rw [ih (s / p) hgt, Nat.div_div_eq_div_mul, ← pow_succ']
    · rename_i hcond
      rw [if_neg hcond] at hgt
      omega

theorem greedyFold_le (t r : Nat) : ∀ (L : List (Nat × Nat)) s,
    greedyFold t r L s ≤ s := by
  intro L
  induction L with
  | nil => intro s; simp [greedyFold]
  | cons pc rest ih =>
    intro s
    exact le_trans (ih _) (greedyReduce_le t r pc.1 pc.2 s)

theorem greedyFold_dvd (t r : Nat) : ∀ (L : List (Nat × Nat)) s,
    (∀ pc ∈ L, 2 ≤ pc.1) → (∀ pc ∈ L, pc.1 ^ pc.2 ∣ s) →
    L.Pairwise (fun a b => Nat.Coprime a.1 b.1) →
    greedyFold t r L s ∣ s := by
  intro L
  induction L with
  | nil => intro s _ _ _; simp [greedyFold]
  | cons pc rest ih =>
    intro s h2 hdvd hpair
    have hhead : pc.1 ^ pc.2 ∣ s := hdvd pc (by simp)
    have hp2 : 2 ≤ pc.1 := h2 pc (by simp)
    rcases greedyReduce_eq_div t r pc.1 hp2 pc.2 s hhead with ⟨k, hk, heq⟩
    have hpk : pc.1 ^ k ∣ s := dvd_trans (pow_dvd_pow pc.1 hk) hhead
    have hquot : s / pc.1 ^ k ∣ s := by
      rcases hpk with ⟨m, hm⟩
      refine ⟨pc.1 ^ k, ?_⟩
      rw [hm, Nat.mul_div_cancel_left _ (Nat.pos_pow_of_pos k (by omega)), mul_comm]
    have hrest : ∀ qc ∈ rest, qc.1 ^ qc.2 ∣ s / pc.1 ^ k := by
      intro qc hq
      have hco : Nat.Coprime pc.1 qc.1 :=
        (List.pairwise_cons.1 hpair).1 qc hq
      have hco2 : Nat.Coprime (qc.1 ^ qc.2) (pc.1 ^ k) :=
        Nat.Coprime.pow _ _ (Nat.Coprime.symm hco)
      rcases hpk with ⟨m, hm⟩
      rw [hm, Nat.mul_div_cancel_left _ (Nat.pos_pow_of_pos k (by omega))]
      have hq1 : qc.1 ^ qc.2 ∣ pc.1 ^ k * m := hm ▸ hdvd qc (by simp [hq])
      exact (Nat.Coprime.dvd_of_dvd_mul_left hco2) hq1
    rw [greedyFold, heq]
    exact dvd_trans
      (ih (s / pc.1 ^ k) (fun qc hq => h2 qc (by simp [hq])) hrest
        (List.pairwise_cons.1 hpair).2)
      hquot

theorem greedyFold_exhaust (t r : Nat) : ∀ (L : List (Nat × Nat)) s,
    (∀ pc ∈ L, 2 ≤ pc.1) →
    t < greedyFold t r L s * r →
    greedyFold t r L s = removeAllPairs L s := by
  intro L
  induction L with
  | nil => intro s _ _; simp [greedyFold, removeAllPairs]
  | cons pc rest ih =>
    intro s h2 hgt
    rw [greedyFold] at hgt ⊢
    have hinter : t < greedyReduce t r pc.1 pc.2 s * r := by
      have hle := greedyFold_le t r rest (greedyReduce t r pc.1 pc.2 s)
      have := Nat.mul_le_mul_right r hle
      omega
    have hstep := greedyReduce_exhaust t r pc.1 pc.2 s hinter
    rw [removeAllPairs, ← hstep]
    exact ih (greedyReduce t r pc.1 pc.2 s)
      (fun qc hq => h2 qc (by simp [hq])) hgt

theorem pairwise_fst_zip {α β : Type} (R : α → α → Prop) :
    ∀ (ps : List α) (cs : List β), List.Pairwise R ps →
    List.Pairwise (fun a b => R a.1 b.1) (ps.zip cs) := by
  intro ps
  induction ps with
  | nil => intro cs _; simp
  | cons p ps ih =>
    intro cs hp
    cases cs with
    | nil => simp
    | cons c cs =>
      rw [List.zip_cons_cons, List.pairwise_cons]
      refine ⟨?_, ih cs (List.pairwise_cons.1 hp).2⟩
      intro qc hq
      exact (List.pairwise_cons.1 hp).1 qc.1 (List.of_mem_zip (by simpa using hq)).1

theorem primesList_two_le : ∀ p ∈ primesList, 2 ≤ p := by decide

theorem primesList_pairwise_coprime : List.Pairwise Nat.Coprime primesList := by decide

/-- Claim C4 counterexample: the claim fails as stated.  First
instance: dimension size 4, maxElements 3, targetElements 10, rest 1
(shape [4]): the reduction loop never runs because 4 * 1 does not
exceed the target, BestSplitSize returns none, yet the divisor 2 of 4
satisfies the ceiling (and even the target).  Second instance:
dimension size 313 (a prime beyond the 64-entry table), maxElements
100, targetElements 50: BestSplitSize returns none, yet the divisor 1
satisfies the ceiling. -/
theorem c4_counterexample :
    (BestSplitSize 3 10 [4] 0 = none ∧ (2 ∣ 4) ∧ 2 ≤ 3 ∧ 2 * 1 ≤ 10) ∧
    (BestSplitSize 100 50 [313] 0 = none ∧ (1 ∣ 313) ∧ 1 ≤ 100) := by
  refine ⟨⟨by decide, by decide, by decide, by decide⟩, ⟨by decide, by decide, by decide⟩⟩

/-- Claim C4 as amended: whenever BestSplitSize returns a value v, v
exactly divides the split dimension size and v ≤ maxElements; and
whenever it returns none — provided targetElements ≤ maxElements *
restOfElementCount, which holds in the pass where targetElements ≤
maxElements and every dimension is positive — no divisor of the
dimension size that is obtainable by dividing out primes of the
64-entry table (equivalently, no divisor that the 311-rough part of
the dimension size divides) is ≤ maxElements.  Arbitrary divisors can
still satisfy the ceiling, as the counterexample shows. -/
theorem c4_amended (maxSize targetSize : Nat) (shape : Shape) (splitDim : Nat)
    (hdim : splitDim < shape.length) (hpos : ∀ d ∈ shape, 0 < d) :
    (∀ v, BestSplitSize maxSize targetSize shape splitDim = some v →
      v ∣ shape.getD splitDim 0 ∧ v ≤ maxSize) ∧
    (BestSplitSize maxSize targetSize shape splitDim = none →
      targetSize ≤ maxSize * (ElementsIn shape / shape.getD splitDim 0) →
      ∀ d, d ∣ shape.getD splitDim 0 →
        (factorCounts primesList (shape.getD splitDim 0)).2 ∣ d →
        maxSize < d) := by
  have hsizemem : shape.getD splitDim 0 ∈ shape := by
    rw [List.getD_eq_getElem shape 0 hdim]
    exact List.getElem_mem hdim
  have hsizepos : 0 < shape.getD splitDim 0 := hpos _ hsizemem
  have hL2 : ∀ pc ∈ primesList.zip (factorCounts primesList (shape.getD splitDim 0)).1,
      2 ≤ pc.1 := by
    intro pc hpc
    exact primesList_two_le pc.1 (List.of_mem_zip (by simpa using hpc)).1
  have hLdvd : ∀ pc ∈ primesList.zip (factorCounts primesList (shape.getD splitDim 0)).1,
      pc.1 ^ pc.2 ∣ shape.getD splitDim 0 :=
    factorCounts_zip_dvd primesList (shape.getD splitDim 0)
  have hLpair :
      (primesList.zip (factorCounts primesList (shape.getD splitDim 0)).1).Pairwise
        (fun a b => Nat.Coprime a.1 b.1) :=
    pairwise_fst_zip Nat.Coprime primesList _ primesList_pairwise_coprime
  have hfdvd := greedyFold_dvd targetSize (ElementsIn shape / shape.getD splitDim 0)
    (primesList.zip (factorCounts primesList (shape.getD splitDim 0)).1)
    (shape.getD splitDim 0) hL2 hLdvd hLpair
  constructor
  · intro v hv
    simp only [BestSplitSize] at hv
    split at hv
    · rename_i hle
      injection hv with hv
      subst hv
      exact ⟨hfdvd, hle⟩
    · cases hv
  · intro hnone htarget d hd hrough
    simp only [BestSplitSize] at hnone
    split at hnone
    · cases hnone
    · rename_i hmax
      push_neg at hmax
      set size := shape.getD splitDim 0 with hsize
      set rest := ElementsIn shape / size with hrest
      set L := primesList.zip (factorCounts primesList size).1 with hL
      set final := greedyFold targetSize rest L size with hfinal
      have hrestpos : 0 < rest := by
        have hprodpos : 0 < ElementsIn shape := List.prod_pos hpos
        have hdvdprod : size ∣ ElementsIn shape := List.dvd_prod hsizemem
        have := Nat.le_of_dvd hprodpos hdvdprod
        rw [hrest]
        exact Nat.div_pos this hsizepos
      have hgt : targetSize < final * rest := by
        by_contra hle
        push_neg at hle
        have h1 : final * rest ≤ maxSize * rest := le_trans hle htarget
        have h2 : final ≤ maxSize := Nat.le_of_mul_le_mul_right h1 hrestpos
        omega
      have hexh : final = removeAllPairs L size :=
        greedyFold_exhaust targetSize rest L size hL2 hgt
      have hrem : removeAllPairs L size = (factorCounts primesList size).2 :=
        factorCounts_removeAll primesList size primesList_two_le (by omega)
      have hdpos : 0 < d := by
        rcases Nat.eq_zero_or_pos d with h0 | h
        · subst h0
          rcases hd with ⟨m, hm⟩
          omega
        · exact h
      have : (factorCounts primesList size).2 ≤ d := Nat.le_of_dvd hdpos hrough
      omega

/-- Witness for the amended claim C4: on shape [6] with maxElements 10
and targetElements 3, BestSplitSize returns 3, which divides 6 and
respects the ceiling. -/
theorem c4_amended_witness : (3 : Nat) ∣ 6 ∧ (3 : Nat) ≤ 10 :=
  (c4_amended 10 3 [6] 0 (by decide) (by decide)).1 3 (by decide)

/-
  The accumulator of the BestSplitDim fold, cut off after the first n
  dimensions: a proof-side device to state the loop invariant.
-/

/-- The BestSplitDim fold after the first n dimension indices. -/
def bestSplitDimAcc (maxSize targetSize : Nat) (shape : Shape) (excluded : List Nat)
    (n : Nat) : Option Nat × Nat :=
  (List.range n).foldl
    (fun acc i =>
      if i ∈ excluded then acc
      else if acc.2 < shape.getD i 0 ∧ (BestSplitSize maxSize targetSize shape i).isSome
        then (some i, shape.getD i 0) else acc)
    ((none : Option Nat), 0)

theorem bestSplitDim_eq_acc (maxSize targetSize : Nat) (shape : Shape)
    (excluded : List Nat) :
    BestSplitDim maxSize targetSize shape excluded =
      (bestSplitDimAcc maxSize targetSize shape excluded shape.length).1 := rfl

theorem bestSplitDimAcc_succ (maxSize targetSize : Nat) (shape : Shape)
    (excluded : List Nat) (n : Nat) :
    bestSplitDimAcc maxSize targetSize shape excluded (n + 1) =
      (fun acc i =>
        if i ∈ excluded then acc
        else if acc.2 < shape.getD i 0 ∧ (BestSplitSize maxSize targetSize shape i).isSome
          then (some i, shape.getD i 0) else acc)
        (bestSplitDimAcc maxSize targetSize shape excluded n) n := by
  unfold bestSplitDimAcc
  rw [List.range_succ, List.foldl_append, List.foldl_cons, List.foldl_nil]

/-- Loop invariant of the BestSplitDim fold: after n steps the
accumulator is either still the initial (-1, 0) and every qualifying
dimension seen so far has size 0, or it holds the first qualifying
dimension of maximal size among the first n. -/
theorem bestSplitDimAcc_inv (maxSize targetSize : Nat) (shape : Shape)
    (excluded : List Nat) : ∀ n : Nat,
    (bestSplitDimAcc maxSize targetSize shape excluded n = (none, 0) ∧
      ∀ j, j < n → j ∉ excluded →
        (BestSplitSize maxSize targetSize shape j).isSome = true →
        shape.getD j 0 = 0) ∨
    (∃ d, bestSplitDimAcc maxSize targetSize shape excluded n = (some d, shape.getD d 0) ∧
      d < n ∧ d ∉ excluded ∧
      (BestSplitSize maxSize targetSize shape d).isSome = true ∧
      0 < shape.getD d 0 ∧
      ∀ j, j < n → j ∉ excluded →
        (BestSplitSize maxSize targetSize shape j).isSome = true →
        (shape.getD j 0 < shape.getD d 0 ∨
          (shape.getD j 0 = shape.getD d 0 ∧ d ≤ j))) := by
  intro n
  induction n with
  | zero =>
    left
    exact ⟨rfl, by omega⟩
  | succ n ih =>
    rw [bestSplitDimAcc_succ]
    by_cases hex : n ∈ excluded
    · rcases ih with ⟨hacc, hall⟩ | ⟨d, hacc, hdn, hdex, hds, hdpos, hdom⟩
      · left
        rw [hacc]
        refine ⟨if_pos hex, ?_⟩
        intro j hj hjex hjs
        rcases Nat.lt_succ_iff_lt_or_eq.1 hj with h | h
        · exact hall j h hjex hjs
        · subst h; exact absurd hex hjex
      · right
        refine ⟨d, ?_, by omega, hdex, hds, hdpos, ?_⟩
        · rw [hacc]; simp only [if_pos hex]
        · intro j hj hjex hjs
          rcases Nat.lt_succ_iff_lt_or_eq.1 hj with h | h
          · exact hdom j h hjex hjs
          · subst h; exact absurd hex hjex
    · rcases ih with ⟨hacc, hall⟩ | ⟨d, hacc, hdn, hdex, hds, hdpos, hdom⟩
      · rw [hacc]
        simp only [if_neg hex]
        by_cases hcond : (0 : Nat) < shape.getD n 0 ∧
            (BestSplitSize maxSize targetSize shape n).isSome
        · right
          rw [if_pos hcond]
          refine ⟨n, rfl, by omega, hex, hcond.2, hcond.1, ?_⟩
          intro j hj hjex hjs
          rcases Nat.lt_succ_iff_lt_or_eq.1 hj with h | h
          · left
            have := hall j h hjex hjs
            omega
          · subst h; right; exact ⟨rfl, le_rfl⟩
        · left
          rw [if_neg hcond]
          refine ⟨rfl, ?_⟩
          intro j hj hjex hjs
          rcases Nat.lt_succ_iff_lt_or_eq.1 hj with h | h
          · exact hall j h hjex hjs
          · subst h
            by_contra hne
            exact hcond ⟨Nat.pos_of_ne_zero hne, hjs⟩
      · rw [hacc]
        simp only [if_neg hex]
        by_cases hcond : shape.getD d 0 < shape.getD n 0 ∧
            (BestSplitSize maxSize targetSize shape n).isSome
        · right
          rw [if_pos hcond]
          refine ⟨n, rfl, by omega, hex, hcond.2, by omega, ?_⟩
          intro j hj hjex hjs
          rcases Nat.lt_succ_iff_lt_or_eq.1 hj with h | h
          · left
            rcases hdom j h hjex hjs with h1 | h1
            · omega
            · omega
          · subst h; right; exact ⟨rfl, le_rfl⟩
        · right
          rw [if_neg hcond]
          refine ⟨d, rfl, by omega, hdex, hds, hdpos, ?_⟩
          intro j hj hjex hjs
          rcases Nat.lt_succ_iff_lt_or_eq.1 hj with h | h
          · exact hdom j h hjex hjs
          · subst h
            have hle : shape.getD j 0 ≤ shape.getD d 0 := by
              by_contra hgt
              exact hcond ⟨by omega, hjs⟩
            rcases Nat.lt_or_ge (shape.getD j 0) (shape.getD d 0) with h1 | h1
            · exact Or.inl h1
            · exact Or.inr ⟨by omega, by omega⟩

/-- Claim C5: whenever BestSplitDim returns a dimension d, d is a
non-excluded in-range dimension with a successful BestSplitSize, and
every other qualifying dimension either has a strictly smaller size or
has the same size and a not-smaller index (ties go to the lowest
index); whenever it returns none, no non-excluded dimension has a
successful BestSplitSize.  (Dimension sizes are required positive;
with a zero-sized dimension the source factor-counting loop does not
terminate.) -/
theorem c5_best_split_dim (maxSize targetSize : Nat) (shape : Shape)
    (excluded : List Nat) (hpos : ∀ d ∈ shape, 0 < d) :
    (∀ d, BestSplitDim maxSize targetSize shape excluded = some d →
      d < shape.length ∧ d ∉ excluded ∧
      (BestSplitSize maxSize targetSize shape d).isSome = true ∧
      ∀ j, j < shape.length → j ∉ excluded →
        (BestSplitSize maxSize targetSize shape j).isSome = true →
        (shape.getD j 0 < shape.getD d 0 ∨
          (shape.getD j 0 = shape.getD d 0 ∧ d ≤ j))) ∧
    (BestSplitDim maxSize targetSize shape excluded = none →
      ∀ j, j < shape.length → j ∉ excluded →
        (BestSplitSize maxSize targetSize shape j).isSome = false) := by
  have hinv := bestSplitDimAcc_inv maxSize targetSize shape excluded shape.length
  constructor
  · intro d hd
    rw [bestSplitDim_eq_acc] at hd
    rcases hinv with ⟨hacc, _⟩ | ⟨d0, hacc, hdn, hdex, hds, _, hdom⟩
    · rw [hacc] at hd; cases hd
    · rw [hacc] at hd
      have hset : d0 = d := by simpa using hd
      subst hset
      exact ⟨hdn, hdex, hds, hdom⟩
  · intro hnone j hj hjex
    rw [bestSplitDim_eq_acc] at hnone
    rcases hinv with ⟨hacc, hall⟩ | ⟨d0, hacc, _⟩
    · cases h : (BestSplitSize maxSize targetSize shape j).isSome
      · rfl
      · exfalso
        have hz := hall j hj hjex h
        have hmem : shape.getD j 0 ∈ shape := by
          rw [List.getD_eq_getElem shape 0 hj]
          exact List.getElem_mem hj
        have := hpos _ hmem
        omega
    · rw [hacc] at hnone
      cases hnone

/-- Witness for claim C5: on shape [4, 6, 6] with dimension 0 excluded,
BestSplitDim picks dimension 1 (the first of the two size-6 ties). -/
theorem c5_witness :
    (1 : Nat) < 3 ∧ (1 : Nat) ∉ ([0] : List Nat) ∧
    (BestSplitSize 1000 1 [4, 6, 6] 1).isSome = true :=
  have h := (c5_best_split_dim 1000 1 [4, 6, 6] [0] (by decide)).1 1 (by decide)
  ⟨h.1, h.2.1, h.2.2.1⟩

/-- Claim C9: whenever BestSplitDim returns a dimension d, BestSplitSize
on the same shape and dimension succeeds — BestSplitDim only records a
dimension after checking BestSplitSize, and BestSplitSize is a pure
function, so the re-check in HandleDot cannot fail. -/
theorem c9_best_split_size_succeeds (maxSize targetSize : Nat) (shape : Shape)
    (excluded : List Nat) (d : Nat)
    (h : BestSplitDim maxSize targetSize shape excluded = some d) :
    (BestSplitSize maxSize targetSize shape d).isSome = true := by
  rw [bestSplitDim_eq_acc] at h
  rcases bestSplitDimAcc_inv maxSize targetSize shape excluded shape.length with
    ⟨hacc, _⟩ | ⟨d0, hacc, _, _, hds, _, _⟩
  · rw [hacc] at h; cases h
  · rw [hacc] at h
    have hset : d0 = d := by simpa using h
    subst hset
    exact hds

/-- Witness for claim C9 at a concrete instance. -/
theorem c9_witness : (BestSplitSize 7 4 [8] 0).isSome = true :=
  c9_best_split_size_succeeds 7 4 [8] [] 0 (by decide)

/-
  Frame facts about HandleDot and the module run, for claim C8.
-/

theorem handleDot_unchanged_of_not_splittable (maxSize targetSize : Nat)
    (shape : Shape) (lhs rhs : HloInst) (lhsC rhsC : List Nat)
    (h1 : (OperandShouldBeSplit maxSize lhs && OperandCanBeSplit lhs) = false)
    (h2 : (OperandShouldBeSplit maxSize rhs && OperandCanBeSplit rhs) = false) :
    HandleDot maxSize targetSize (.dot shape lhs rhs lhsC rhsC) = .unchanged := by
  simp [HandleDot, h1, h2]

theorem handleDot_unchanged_of_no_dim (maxSize targetSize : Nat)
    (shape : Shape) (lhs rhs : HloInst) (lhsC rhsC : List Nat)
    (hdim : BestSplitDim maxSize targetSize
      (if OperandShouldBeSplit maxSize lhs && OperandCanBeSplit lhs then lhs
        else rhs).shape
      (if OperandShouldBeSplit maxSize lhs && OperandCanBeSplit lhs then lhsC
        else rhsC) = none) :
    HandleDot maxSize targetSize (.dot shape lhs rhs lhsC rhsC) = .unchanged := by
  cases hl : OperandShouldBeSplit maxSize lhs && OperandCanBeSplit lhs with
  | true =>
    simp only [hl, if_pos] at hdim
    simp [HandleDot, hl, hdim]
  | false =>
    rw [hl] at hdim
    simp only [Bool.false_eq_true, if_false] at hdim
    cases hr : OperandShouldBeSplit maxSize rhs && OperandCanBeSplit rhs with
    | true => simp [HandleDot, hl, hr, hdim]
    | false => simp [HandleDot, hl, hr]

/-- A module instruction with no oversized contraction operand: if it is
a dot, neither operand exceeds the ceiling. -/
def noOversizedOperand (maxSize : Nat) : HloInst → Prop
  | .dot _ lhs rhs _ _ =>
    OperandShouldBeSplit maxSize lhs = false ∧ OperandShouldBeSplit maxSize rhs = false
  | _ => True

theorem handleDot_unchanged_of_noOversized (maxSize targetSize : Nat)
    (inst : HloInst) (h : noOversizedOperand maxSize inst) :
    ∀ shape lhs rhs lhsC rhsC, inst = .dot shape lhs rhs lhsC rhsC →
    HandleDot maxSize targetSize inst = .unchanged := by
  intro shape lhs rhs lhsC rhsC heq
  subst heq
  rcases h with ⟨h1, h2⟩
  exact handleDot_unchanged_of_not_splittable maxSize targetSize shape lhs rhs lhsC rhsC
    (by simp [h1]) (by simp [h2])

theorem runOnModule_fold_noop (maxSize targetSize : Nat) :
    ∀ (m : List HloInst), (∀ inst ∈ m, noOversizedOperand maxSize inst) →
    ∀ (b : Bool) (acc : List HloInst),
    m.foldl
      (fun acc inst =>
        match inst with
        | .dot _ _ _ _ _ =>
          match HandleDot maxSize targetSize inst with
          | .replaced g => (true, acc.2 ++ [g])
          | _ => (acc.1, acc.2 ++ [inst])
        | _ => (acc.1, acc.2 ++ [inst]))
      (b, acc) = (b, acc ++ m) := by
  intro m
  induction m with
  | nil => intro _ b acc; simp
  | cons inst m ih =>
    intro hben b acc
    have hbenm : ∀ i ∈ m, noOversizedOperand maxSize i :=
      fun i hi => hben i (by simp [hi])
    cases inst
    case dot s l r lc rc =>
      have hben1 := hben (HloInst.dot s l r lc rc) (by simp)
      have hu := handleDot_unchanged_of_not_splittable maxSize targetSize s l r lc rc
        (by simp [hben1.1]) (by simp [hben1.2])
      simp only [List.foldl_cons, hu]
      rw [ih hbenm]
      simp
    all_goals
      simp only [List.foldl_cons]
      rw [ih hbenm]
      simp

/-- Claim C8: a dot with no splittable operand is left unchanged by
HandleDot; a dot whose selected operand allows no split dimension is
left unchanged; and the pass run over a module with no oversized
contraction operand reports no change, returns the module intact, and
a second run is again a no-op. -/
theorem c8_frame_and_idempotence (maxSize targetSize : Nat) :
    (∀ (shape : Shape) (lhs rhs : HloInst) (lhsC rhsC : List Nat),
      (OperandShouldBeSplit maxSize lhs && OperandCanBeSplit lhs) = false →
      (OperandShouldBeSplit maxSize rhs && OperandCanBeSplit rhs) = false →
      HandleDot maxSize targetSize (.dot shape lhs rhs lhsC rhsC) = .unchanged) ∧
    (∀ (shape : Shape) (lhs rhs : HloInst) (lhsC rhsC : List Nat),
      BestSplitDim maxSize targetSize
        (if OperandShouldBeSplit maxSize lhs && OperandCanBeSplit lhs then lhs
          else rhs).shape
        (if OperandShouldBeSplit maxSize lhs && OperandCanBeSplit lhs then lhsC
          else rhsC) = none →
      HandleDot maxSize targetSize (.dot shape lhs rhs lhsC rhsC) = .unchanged) ∧
    (∀ (m : List HloInst), (∀ inst ∈ m, noOversizedOperand maxSize inst) →
      RunOnModule maxSize targetSize m = (false, m) ∧
      RunOnModule maxSize targetSize (RunOnModule maxSize targetSize m).2 = (false, m)) := by
  refine ⟨handleDot_unchanged_of_not_splittable maxSize targetSize,
    handleDot_unchanged_of_no_dim maxSize targetSize, ?_⟩
  intro m hben
  have hrun : RunOnModule maxSize targetSize m = (false, m) := by
    have := runOnModule_fold_noop maxSize targetSize m hben false []
    simpa [RunOnModule] using this
  refine ⟨hrun, ?_⟩
  rw [hrun]
  exact hrun

/-- Witness for claim C8: a module with one small dot (4 elements per
operand, ceiling 100) passes through unchanged. -/
theorem c8_witness :
    RunOnModule 100 10
      [HloInst.dot [2, 2] (.parameter 0 [2, 2]) (.parameter 1 [2, 2]) [1] [0]] =
    (false,
      [HloInst.dot [2, 2] (.parameter 0 [2, 2]) (.parameter 1 [2, 2]) [1] [0]]) :=
  ((c8_frame_and_idempotence 100 10).2.2
    [HloInst.dot [2, 2] (.parameter 0 [2, 2]) (.parameter 1 [2, 2]) [1] [0]]
    (by
      intro inst h
      rw [List.mem_singleton] at h
      subst h
      exact ⟨by decide, by decide⟩)).1
